import Mathlib

/-!
Verification development for the Telegram web-preview scraping pipeline and
its text-chunking component (`utils/parser.py` and `utils/text_utils.py`).

Python strings are modelled as `List Char` (Python indexes and slices by code
point).  Python `str.strip` family is modelled over the ASCII whitespace set
(the characters relevant to every behaviour considered here); Python `float`
arithmetic inside the counter parser is modelled exactly over `ℚ` (the two
agree on every counter magnitude of interest, and `int` truncation of a
non-negative value is `floor`).  The HTTP/HTML layer is abstracted as a
function from the pagination cursor actually sent to a fetch outcome; a
parsed message node carries exactly the attributes the extractors read.
-/

/-- Characters stripped by Python `str.strip()` / `rstrip` / `lstrip`
(ASCII whitespace). -/
def pyIsSpace (c : Char) : Bool :=
  c == ' ' || c == '\t' || c == '\n' || c == '\x0d' || c == '\x0b' || c == '\x0c'

/-- Python `str.lstrip()`. -/
def pyLstrip (l : List Char) : List Char := l.dropWhile pyIsSpace

/-- Python `str.rstrip()`. -/
def pyRstrip (l : List Char) : List Char := (l.reverse.dropWhile pyIsSpace).reverse

/-- Python `str.strip()`. -/
def pyStrip (l : List Char) : List Char := pyRstrip (pyLstrip l)

/-- Python `str.rfind(c)`: index of the last occurrence, `-1` if absent. -/
def pyRfind (l : List Char) (c : Char) : Int :=
  match l.reverse.findIdx? (· == c) with
  | some i => ((l.length - 1 - i : Nat) : Int)
  | none => -1

/-- String literal to the `List Char` model. -/
def s2l (s : String) : List Char := s.data

/-- Source `text_utils._find_split_index`: in the window of the first
`max_length + 1` characters, the last newline/space/tab position if it is
positive, otherwise `max_length`. -/
def _find_split_index (text : List Char) (max_length : Nat) : Nat :=
  let window := text.take (max_length + 1)
  let splitIdx := max (pyRfind window '\n') (max (pyRfind window ' ') (pyRfind window '\t'))
  if 0 < splitIdx then splitIdx.toNat else max_length

/-- Source `text_utils.split_text_once`: splits a text in two, the first part
not exceeding `max_length`. -/
def split_text_once (text : List Char) (max_length : Nat) : List Char × List Char :=
  if pyStrip text = [] then ([], [])
  else
    let t := pyStrip text
    if t.length ≤ max_length then (t, [])
    else
      let splitIdx := _find_split_index t max_length
      (pyRstrip (t.take splitIdx), pyLstrip (t.drop splitIdx))

/-- Fuel-indexed body of the `while remainder:` loop of
`text_utils.split_text`; the loop also stops when a produced head is empty. -/
def splitTextGo (max_length : Nat) : Nat → List Char → List (List Char)
  | 0, _ => []
  | fuel + 1, remainder =>
    if remainder = [] then []
    else
      let step := split_text_once remainder max_length
      if step.1 = [] then [] else step.1 :: splitTextGo max_length fuel step.2

/-- Source `text_utils.split_text`: splits a text into parts of length up to
`max_length`.  The fuel `text.length + 1` dominates the iteration count of the
source loop (each iteration that continues consumes at least one character). -/
def split_text (text : List Char) (max_length : Nat) : List (List Char) :=
  if pyStrip text = [] then []
  else splitTextGo max_length (text.length + 1) (pyStrip text)

-- ### parser.py : pure string helpers

/-- ASCII lowering; models `re.IGNORECASE` on the patterns of `parser.py`
(all of which contain ASCII letters only). -/
def lowerChar (c : Char) : Char :=
  if 'A' ≤ c ∧ c ≤ 'Z' then Char.ofNat (c.toNat + 32) else c

/-- ASCII-lowered copy of a string. -/
def lowerList (l : List Char) : List Char := l.map lowerChar

/-- Case-insensitive literal match at the start of the string: `some rest`
when `l` starts with `lit` (given lowercase), else `none`. -/
def dropCaseLit (lit l : List Char) : Option (List Char) :=
  if lowerList (l.take lit.length) = lit then some (l.drop lit.length) else none

/-- The optional feed-view marker group `(s/)?` of the two prefix regexes. -/
def stripFeedMarker (l : List Char) : List Char :=
  match dropCaseLit (s2l "s/") l with
  | some r => r
  | none => l

/-- Source regex substitution: removes a case-insensitive leading
scheme-and-host `https?://t.me/` optionally followed by `s/`. -/
def stripSchemeHost (l : List Char) : List Char :=
  match dropCaseLit (s2l "https://t.me/") l with
  | some r => stripFeedMarker r
  | none =>
    match dropCaseLit (s2l "http://t.me/") l with
    | some r => stripFeedMarker r
    | none => l

/-- Source regex substitution: removes a case-insensitive leading bare host
`t.me/` optionally followed by `s/` (only tried by `parse_post_link`). -/
def stripBareHost (l : List Char) : List Char :=
  match dropCaseLit (s2l "t.me/") l with
  | some r => stripFeedMarker r
  | none => l

/-- Python `.lstrip("@")`: removes every leading `@`. -/
def lstripAt (l : List Char) : List Char := l.dropWhile (· == '@')

/-- The stripping stage of `parser._normalize_channel` (everything before
`split("/")[0]`): strip whitespace, remove the scheme-and-host, strip `@`. -/
def normStripStage (channel : List Char) : List Char :=
  lstripAt (stripSchemeHost (pyStrip channel))

/-- Source `parser._normalize_channel`: the slug is everything before the
first `/` left after the stripping stage (`split("/")[0]`). -/
def _normalize_channel (channel : List Char) : List Char :=
  (normStripStage channel).takeWhile (fun c => c != '/')

/-- Source `parser.normalize_channel_link`. -/
def normalize_channel_link (channel : List Char) : List Char :=
  s2l "https://t.me/" ++ _normalize_channel channel

/-- The stripping stage of `parser.parse_post_link` (everything before the
split on `/`): strip whitespace; remove the scheme-and-host; when that regex
changed nothing, additionally try the bare host `t.me/`; strip `@`. -/
def parseStripStage (url : List Char) : List Char :=
  let s := pyStrip url
  let c1 := stripSchemeHost s
  let c2 := if c1 = s then stripBareHost c1 else c1
  lstripAt c2

/-- Python `str.split("/")`: always at least one part, keeps empty parts. -/
def pySplitSlash (l : List Char) : List (List Char) :=
  match l with
  | [] => [[]]
  | c :: rest =>
    if c = '/' then [] :: pySplitSlash rest
    else
      match pySplitSlash rest with
      | [] => [[c]]
      | h :: t => (c :: h) :: t

/-- Numeric value of an ASCII digit string (used for the counter regex,
whose `[0-9]` classes are ASCII-only). -/
def digitsToNat (l : List Char) : Nat :=
  l.foldl (fun a c => a * 10 + (c.toNat - '0'.toNat)) 0

/-- First code points of every run of ten consecutive Unicode decimal digits
0–9 (category `Nd`, Unicode 14.0 — the table CPython 3.11's `str.isdigit`
and `int` use for decimal digits). -/
def decDigitStarts : List Nat :=
  [0x30, 0x660, 0x6F0, 0x7C0, 0x966, 0x9E6, 0xA66, 0xAE6, 0xB66, 0xBE6,
   0xC66, 0xCE6, 0xD66, 0xDE6, 0xE50, 0xED0, 0xF20, 0x1040, 0x1090, 0x17E0,
   0x1810, 0x1946, 0x19D0, 0x1A80, 0x1A90, 0x1B50, 0x1BB0, 0x1C40, 0x1C50,
   0xA620, 0xA8D0, 0xA900, 0xA9D0, 0xA9F0, 0xAA50, 0xABF0, 0xFF10, 0x104A0,
   0x10D30, 0x11066, 0x110F0, 0x11136, 0x111D0, 0x112F0, 0x11450, 0x114D0,
   0x11650, 0x116C0, 0x11730, 0x118E0, 0x11950, 0x11C50, 0x11D50, 0x11DA0,
   0x16A60, 0x16AC0, 0x16B50, 0x1D7CE, 0x1D7D8, 0x1D7E2, 0x1D7EC, 0x1D7F6,
   0x1E140, 0x1E2F0, 0x1E950, 0x1FBF0]

/-- Decimal value of a Unicode decimal digit — exactly the characters
Python's `int` parses as digits — `none` for every other character. -/
def decDigit? (c : Char) : Option Nat :=
  match decDigitStarts.find? (fun lo => decide (lo ≤ c.toNat) && decide (c.toNat ≤ lo + 9)) with
  | some lo => some (c.toNat - lo)
  | none => none

/-- Per-character test of Python `str.isdigit()`, restricted to the decimal
digits.  Real `isdigit` also accepts the `Numeric_Type=Digit` characters that
are not decimal (such as `'²'`), but `int()` raises `ValueError` on those;
everywhere `isdigit` appears in the source the subsequent `int()` failure is
caught and mapped to the same "no id" outcome, so the observable behaviour
depends only on the decimal set modelled here. -/
def isdigitChar (c : Char) : Bool := (decDigit? c).isSome

/-- Python `str.isdigit()` over the decimal subset (see `isdigitChar`):
non-empty and all characters digits. -/
def pyIsdigit (l : List Char) : Bool := !l.isEmpty && l.all isdigitChar

/-- Python `int` on an all-decimal-digit string: each Unicode decimal digit
contributes its value (mixed digit scripts allowed; leading zeros accepted). -/
def decValue (l : List Char) : Nat :=
  l.foldl (fun a c => a * 10 + (decDigit? c).getD 0) 0

/-- Source `parser.parse_post_link`: a direct post link needs exactly two
parts after the stripping stage — a non-empty slug and an id accepted by
`str.isdigit()` that parses to a strictly positive integer.  The source
wraps `int(post_id_str)` in a `try` whose `ValueError` returns `None`; that
failure can only happen for the non-decimal `isdigit` characters, which the
decimal-only `pyIsdigit` already sends to the same `None`, so the `except`
path needs no separate branch here (see `isdigitChar`). -/
def parse_post_link (url : List Char) : Option (List Char × Nat) :=
  match pySplitSlash (parseStripStage url) with
  | [channel_slug, post_id_str] =>
    if channel_slug = [] then none
    else if pyIsdigit post_id_str then
      let post_id := decValue post_id_str
      if post_id ≤ 0 then none else some (channel_slug, post_id)
    else none
  | _ => none

/-- ASCII uppering; models Python `str.upper()` on the counter tokens. -/
def upperChar (c : Char) : Char :=
  if 'a' ≤ c ∧ c ≤ 'z' then Char.ofNat (c.toNat - 32) else c

/-- The counter regex `([0-9]+(?:[\.,][0-9]+)?)([KM]?)` applied at the start
of the token (`re.match`): integer digits, an optional `.`/`,`-separated
fraction, an optional magnitude suffix.  `none` iff the token does not start
with a digit. -/
def counterScan (t : List Char) :
    Option (List Char × List Char × Option Char) :=
  let d1 := t.takeWhile Char.isDigit
  if d1 = [] then none
  else
    let r1 := t.drop d1.length
    let d2 :=
      match r1 with
      | sep :: r2 =>
        if (sep = '.' ∨ sep = ',') ∧ r2.takeWhile Char.isDigit ≠ [] then
          r2.takeWhile Char.isDigit
        else []
      | [] => []
    let r2 := if d2 = [] then r1 else r1.drop (d2.length + 1)
    let suf :=
      match r2 with
      | c :: _ => if c = 'K' ∨ c = 'M' then some c else none
      | [] => none
    some (d1, d2, suf)

/-- Source `parser._parse_counter`: strips spaces, uppercases, applies the
counter regex; on a match scales by the `K`/`M` suffix and truncates to an
integer, otherwise keeps the digit characters only (0 when none remain).
Python `float` arithmetic is modelled exactly over `ℚ`; the value is
non-negative, so the `int()` truncation is the floor. -/
def _parse_counter (raw : List Char) : Int :=
  let text := (raw.filter (fun c => c != ' ')).map upperChar
  match counterScan text with
  | none =>
    let digits := text.filter isdigitChar
    if digits ≠ [] then (decValue digits : Int) else 0
  | some (d1, d2, suf) =>
    let number : ℚ := (digitsToNat d1 : ℚ) + (digitsToNat d2 : ℚ) / ((10 : ℚ) ^ d2.length)
    let scaled : ℚ :=
      if suf = some 'K' then number * 1000
      else if suf = some 'M' then number * 1000000
      else number
    ⌊scaled⌋

-- ### parser.py : scraper
--
-- The HTTP layer and BeautifulSoup are abstracted: a network is a function
-- from the cursor actually carried by the page request to an outcome, and a
-- parsed message node carries exactly the attributes the extractors read.
-- The `posted_at`/`media_type`/`photo_url`/`video_url` fields are omitted
-- from the Post model: their extractors are field-local best-effort parsers
-- orthogonal to every property considered here.

/-- A parsed `.tgme_widget_message` node, reduced to the attributes the
extractors read. -/
structure Msg where
  data_post : Option (List Char)
  date_href : Option (List Char)
  text : List Char
  views_raw : Option (List Char)
  forwards_raw : Option (List Char)
  has_media : Bool
  is_forwarded : Bool
deriving DecidableEq

/-- A post record as assembled by the scraper (`message_id` is the
internal-only pagination field). -/
structure Post where
  channel_slug : List Char
  channel_link : List Char
  post_link : List Char
  text : List Char
  views : Int
  forwards : Int
  has_media : Bool
  is_forwarded : Bool
  message_id : Option Int
deriving DecidableEq

/-- Outcome of one HTTP GET: a transport failure, or a response with its
status, whether the page carries the `.tgme_page_error` marker, and the
parsed message nodes. -/
inductive FetchOutcome where
  | transportFailure
  | response (status : Nat) (errorPage : Bool) (messages : List Msg)
deriving DecidableEq

/-- A network: the response to a page request as a function of the cursor the
request carries. -/
abbrev Net := Option Int → FetchOutcome

/-- The error taxonomy of the scraping boundary (the source raises a single
`TelegramWebError` class with distinct messages; the constructors follow the
specification's names for those messages). -/
inductive ScrapeError where
  | invalidChannel
  | transportError
  | notFoundOrPrivate
  | accessBlocked (status : Nat)
  | unexpectedStatus (status : Nat)
  | upstreamErrorPage
  | postNotFound
  | missingPostLink
  | noPostsExtracted
deriving DecidableEq

/-- Source `parser._extract_message_id`: last `/`-separated segment of the
`data-post` attribute, parsed as an integer (an absent or empty attribute,
like any unparseable segment, yields `None`).  Python `int(...)` is modelled
on its common shapes: optional surrounding whitespace, an optional sign,
then Unicode decimal digits. -/
def _extract_message_id (m : Msg) : Option Int :=
  match m.data_post with
  | none => none
  | some attr =>
    if attr = [] then none
    else
      let seg := (pySplitSlash attr).getLastD []
      let t := pyStrip seg
      match t with
      | '-' :: ds =>
        if ds ≠ [] ∧ ds.all isdigitChar then some (-(decValue ds : Int)) else none
      | '+' :: ds =>
        if ds ≠ [] ∧ ds.all isdigitChar then some (decValue ds : Int) else none
      | ds =>
        if ds ≠ [] ∧ ds.all isdigitChar then some (decValue ds : Int) else none

/-- Source `parser._extract_post_link`: the `href` of the date-stamp anchor. -/
def _extract_post_link (m : Msg) : Option (List Char) := m.date_href

/-- Source `parser._extract_views`. -/
def _extract_views (m : Msg) : Int :=
  match m.views_raw with
  | some s => _parse_counter s
  | none => 0

/-- Source `parser._extract_forwards`. -/
def _extract_forwards (m : Msg) : Int :=
  match m.forwards_raw with
  | some s => _parse_counter s
  | none => 0

/-- The cursor a page request carries: `if before:` treats both `None` and
`0` as "no cursor" (Python truthiness). -/
def carriedCursor (before : Option Int) : Option Int :=
  match before with
  | some b => if b = 0 then none else some b
  | none => none

/-- One post record of `_fetch_page`'s extraction loop. -/
def buildPost (slug : List Char) (m : Msg) (pl : List Char) : Post :=
  { channel_slug := slug
    channel_link := s2l "https://t.me/" ++ slug
    post_link := pl
    text := m.text
    views := _extract_views m
    forwards := _extract_forwards m
    has_media := m.has_media
    is_forwarded := m.is_forwarded
    message_id := _extract_message_id m }

/-- One iteration of `_fetch_page`'s `for message in reversed(messages)`
loop: a message without a date-stamp anchor is skipped whole; the message id
joins the pagination id list only when truthy (`if msg_id:` — neither `None`
nor `0`), but is stored on the record as extracted. -/
def pageStep (slug : List Char) (acc : List Post × List Int) (m : Msg) :
    List Post × List Int :=
  match _extract_post_link m with
  | none => acc
  | some pl =>
    let ids :=
      match _extract_message_id m with
      | some i => if i = 0 then acc.2 else acc.2 ++ [i]
      | none => acc.2
    (acc.1 ++ [buildPost slug m pl], ids)

/-- Source `TelegramWebScraper._fetch_page`: maps the HTTP outcome onto the
error taxonomy, extracts the page's posts newest-first, and computes the next
cursor as the minimum collected message id when that minimum exceeds 1. -/
def _fetch_page (net : Net) (slug : List Char) (before : Option Int) :
    Except ScrapeError (List Post × Option Int) :=
  match net (carriedCursor before) with
  | .transportFailure => .error .transportError
  | .response status errorPage messages =>
    if status = 404 then .error .notFoundOrPrivate
    else if status = 403 ∨ status = 429 then .error (.accessBlocked status)
    else if status ≠ 200 then .error (.unexpectedStatus status)
    else if errorPage then .error .upstreamErrorPage
    else if messages = [] then .ok ([], none)
    else
      let extracted := messages.reverse.foldl (pageStep slug) ([], [])
      let next_before :=
        match extracted.2.min? with
        | some min_id => if min_id > 1 then some min_id else none
        | none => none
      .ok (extracted.1, next_before)

/-- The `for _ in range(pages)` loop of `fetch_posts`, with fuel standing for
the remaining page budget.  The first component is ghost instrumentation: the
list of cursors carried by the page requests actually issued, in order.  The
loop breaks on an empty page and on a falsy next cursor (`if not
next_before:` — `None` or `0`). -/
def fetchLoop (net : Net) (slug : List Char) :
    Nat → Option Int → List Post → List (Option Int) × Except ScrapeError (List Post)
  | 0, _, acc => ([], .ok acc)
  | fuel + 1, before, acc =>
    let req := carriedCursor before
    match _fetch_page net slug before with
    | .error e => ([req], .error e)
    | .ok (page_posts, next_before) =>
      if page_posts = [] then ([req], .ok acc)
      else
        match next_before with
        | none => ([req], .ok (acc ++ page_posts))
        | some nb =>
          if nb = 0 then ([req], .ok (acc ++ page_posts))
          else
            let rest := fetchLoop net slug fuel (some nb) (acc ++ page_posts)
            (req :: rest.1, rest.2)

/-- Sorting key of the result assembler: `p.get("message_id") or 0`. -/
def idKey (p : Post) : Int := p.message_id.getD 0

/-- Removal of the internal-only field: `p.pop("message_id", None)`. -/
def postPop (p : Post) : Post := { p with message_id := none }

/-- The page-budget clamp `max(1, min(pages, MAX_PAGES))` with
`MAX_PAGES = 20`. -/
def clampPages (pages : Int) : Nat := (max 1 (min pages 20)).toNat

/-- Source `TelegramWebScraper.fetch_posts` up to and including the
descending sort by internal message id (Python `sorted(...)` is a stable
merge sort), before the internal field is removed. -/
def fetch_posts_core (net : Net) (channel : List Char) (pages : Int) :
    Except ScrapeError (List Post) :=
  let slug := _normalize_channel channel
  if slug = [] then .error .invalidChannel
  else
    match (fetchLoop net slug (clampPages pages) none []).2 with
    | .error e => .error e
    | .ok all_posts =>
      if all_posts = [] then .error .noPostsExtracted
      else .ok (all_posts.mergeSort (fun a b => decide (idKey b ≤ idKey a)))

/-- Source `TelegramWebScraper.fetch_posts`: the sorted records with the
internal `message_id` field removed from every one. -/
def fetch_posts (net : Net) (channel : List Char) (pages : Int) :
    Except ScrapeError (List Post) :=
  (fetch_posts_core net channel pages).map (List.map postPop)

/-- Source `TelegramWebScraper.fetch_single_post`: the channel check, the
status mapping of the single request, and the lookup of the message whose
`data-post` attribute is exactly `slug/post_id`. -/
def fetch_single_post (net1 : FetchOutcome) (channel : List Char) (post_id : Int) :
    Except ScrapeError Post :=
  let slug := _normalize_channel channel
  if slug = [] then .error .invalidChannel
  else
    match net1 with
    | .transportFailure => .error .transportError
    | .response status errorPage messages =>
      if status = 404 then .error .notFoundOrPrivate
      else if status = 403 ∨ status = 429 then .error (.accessBlocked status)
      else if status ≠ 200 then .error (.unexpectedStatus status)
      else if errorPage then .error .upstreamErrorPage
      else
        match messages.find?
            (fun m => m.data_post == some (slug ++ '/' :: (toString post_id).data)) with
        | none => .error .postNotFound
        | some message =>
          match _extract_post_link message with
          | none => .error .missingPostLink
          | some pl => .ok (buildPost slug message pl)

-- ### concrete scrape scenarios used by the closed witness statements

/-- A message node carrying a post link and internal id 5. -/
def witMsg : Msg :=
  { data_post := some (s2l "c/5")
    date_href := some (s2l "https://t.me/c/5")
    text := s2l "hi"
    views_raw := none
    forwards_raw := none
    has_media := false
    is_forwarded := false }

/-- A network answering every request with one page holding `witMsg`. -/
def witNet : Net := fun _ => .response 200 false [witMsg]

/-- The post record extracted from `witMsg` on channel `c`. -/
def witPost : Post := buildPost (s2l "c") witMsg (s2l "https://t.me/c/5")

/-- A message node with a post link but no `data-post` attribute. -/
def witMsgNoId : Msg :=
  { data_post := none
    date_href := some (s2l "x")
    text := []
    views_raw := none
    forwards_raw := none
    has_media := false
    is_forwarded := false }

/-- A network whose pages carry no usable message ids. -/
def witNet2 : Net := fun _ => .response 200 false [witMsgNoId]

/-- A network serving a good first page and HTTP 404 on every request that
carries a cursor. -/
def witNet404 : Net := fun b =>
  match b with
  | none => .response 200 false [witMsg]
  | some _ => .response 404 false []

-- ### basic facts about the string primitives

theorem length_dropWhile_le (p : Char → Bool) (l : List Char) :
    (l.dropWhile p).length ≤ l.length := by
  have h := congrArg List.length (List.takeWhile_append_dropWhile p l)
  rw [List.length_append] at h
  omega

theorem length_pyRstrip_le (l : List Char) : (pyRstrip l).length ≤ l.length := by
  have h := length_dropWhile_le pyIsSpace l.reverse
  simpa [pyRstrip] using h

theorem length_pyStrip_le (l : List Char) : (pyStrip l).length ≤ l.length :=
  le_trans (length_pyRstrip_le _) (by simpa [pyLstrip] using length_dropWhile_le pyIsSpace l)

theorem pyRfind_le (l : List Char) (c : Char) : pyRfind l c ≤ (l.length : Int) - 1 := by
  unfold pyRfind
  split
  · rename_i i heq
    have hne : l ≠ [] := by
      intro h
      rw [h] at heq
      simp [List.findIdx?] at heq
    have hlen : 0 < l.length := List.length_pos.mpr hne
    omega
  · omega

theorem find_split_index_le (t : List Char) (n : Nat) : _find_split_index t n ≤ n := by
  unfold _find_split_index
  set w := t.take (n + 1) with hw
  have hwlen : w.length ≤ n + 1 := by
    simpa [hw] using List.length_take_le (n + 1) t
  have h1 := pyRfind_le w '\n'
  have h2 := pyRfind_le w ' '
  have h3 := pyRfind_le w '\t'
  by_cases hpos : 0 < max (pyRfind w '\n') (max (pyRfind w ' ') (pyRfind w '\t'))
  · simp only [hpos, if_true]
    omega
  · simp only [hpos, if_false]
    exact le_rfl

theorem dropWhile_head_false {p : Char → Bool} {l : List Char} {c : Char} {r : List Char}
    (h : l.dropWhile p = c :: r) : p c = false := by
  induction l with
  | nil => simp [List.dropWhile] at h
  | cons a t ih =>
    rw [List.dropWhile_cons] at h
    by_cases hp : p a = true
    · rw [if_pos hp] at h
      exact ih h
    · rw [if_neg hp] at h
      cases h
      simpa using hp

theorem dropWhile_idem (p : Char → Bool) (l : List Char) :
    (l.dropWhile p).dropWhile p = l.dropWhile p := by
  cases h : l.dropWhile p with
  | nil => simp
  | cons c r =>
    have hc := dropWhile_head_false h
    simp [List.dropWhile_cons, hc]

theorem rstrip_decomp (l : List Char) :
    ∃ s, l = pyRstrip l ++ s ∧ ∀ c ∈ s, pyIsSpace c = true := by
  have h2 : l = (l.reverse.takeWhile pyIsSpace ++ l.reverse.dropWhile pyIsSpace).reverse := by
    rw [List.takeWhile_append_dropWhile, List.reverse_reverse]
  rw [List.reverse_append] at h2
  exact ⟨_, h2, fun c hc => List.mem_takeWhile_imp (List.mem_reverse.mp hc)⟩

theorem lstrip_decomp (l : List Char) :
    ∃ s, l = s ++ pyLstrip l ∧ ∀ c ∈ s, pyIsSpace c = true :=
  ⟨l.takeWhile pyIsSpace, (List.takeWhile_append_dropWhile pyIsSpace l).symm,
    fun _ hc => List.mem_takeWhile_imp hc⟩

theorem strip_decomp (l : List Char) :
    ∃ s1 s2, l = s1 ++ pyStrip l ++ s2 ∧
      (∀ c ∈ s1, pyIsSpace c = true) ∧ (∀ c ∈ s2, pyIsSpace c = true) := by
  obtain ⟨s1, h1, hs1⟩ := lstrip_decomp l
  obtain ⟨s2, h2, hs2⟩ := rstrip_decomp (pyLstrip l)
  refine ⟨s1, s2, ?_, hs1, hs2⟩
  have hps : pyStrip l = pyRstrip (pyLstrip l) := rfl
  calc l = s1 ++ pyLstrip l := h1
    _ = s1 ++ (pyRstrip (pyLstrip l) ++ s2) := by rw [← h2]
    _ = s1 ++ pyStrip l ++ s2 := by rw [← hps, List.append_assoc]

theorem strip_head_false {l : List Char} {c : Char} {r : List Char}
    (h : pyStrip l = c :: r) : pyIsSpace c = false := by
  obtain ⟨s, hs, _⟩ := rstrip_decomp (pyLstrip l)
  have hdef : pyStrip l = pyRstrip (pyLstrip l) := rfl
  rw [← hdef, h] at hs
  have hs' : List.dropWhile pyIsSpace l = c :: (r ++ s) := by
    simpa [pyLstrip] using hs
  exact dropWhile_head_false hs'

theorem strip_nil_all_space {l : List Char} (h : pyStrip l = []) :
    ∀ c ∈ l, pyIsSpace c = true := by
  obtain ⟨s1, s2, hd, h1, h2⟩ := strip_decomp l
  rw [h] at hd
  simp only [List.append_nil] at hd
  intro c hc
  rw [hd] at hc
  rcases List.mem_append.mp hc with hm | hm
  · exact h1 c hm
  · exact h2 c hm

theorem all_space_strip_nil {l : List Char} (h : ∀ c ∈ l, pyIsSpace c = true) :
    pyStrip l = [] := by
  have h1 : pyLstrip l = [] := List.dropWhile_eq_nil_iff.mpr h
  simp [pyStrip, h1, pyRstrip]

theorem lstrip_strip (l : List Char) : pyLstrip (pyStrip l) = pyStrip l := by
  cases h : pyStrip l with
  | nil => simp [pyLstrip]
  | cons c r =>
    have hc := strip_head_false h
    simp [pyLstrip, List.dropWhile_cons, hc]

theorem rstrip_strip (l : List Char) : pyRstrip (pyStrip l) = pyStrip l := by
  show pyRstrip (pyRstrip (pyLstrip l)) = pyRstrip (pyLstrip l)
  unfold pyRstrip
  rw [List.reverse_reverse, dropWhile_idem]

theorem strip_idem (l : List Char) : pyStrip (pyStrip l) = pyStrip l := by
  show pyRstrip (pyLstrip (pyStrip l)) = pyStrip l
  rw [lstrip_strip, rstrip_strip]

theorem split_text_once_fst_length_le (t : List Char) (n : Nat) :
    ((split_text_once t n).1).length ≤ n := by
  unfold split_text_once
  by_cases h0 : pyStrip t = []
  · simp [h0]
  · simp only [h0, if_false]
    by_cases hfit : (pyStrip t).length ≤ n
    · simp [hfit]
    · simp only [hfit, if_false]
      calc (pyRstrip ((pyStrip t).take (_find_split_index (pyStrip t) n))).length
          ≤ ((pyStrip t).take (_find_split_index (pyStrip t) n)).length :=
            length_pyRstrip_le _
        _ ≤ _find_split_index (pyStrip t) n := by
            simpa using List.length_take_le _ _
        _ ≤ n := find_split_index_le _ _

theorem splitTextGo_bounded (n fuel : Nat) (rem : List Char) :
    ∀ seg ∈ splitTextGo n fuel rem, seg.length ≤ n := by
  induction fuel generalizing rem with
  | zero =>
    intro seg h
    simp [splitTextGo] at h
  | succ f ih =>
    intro seg h
    unfold splitTextGo at h
    by_cases hrem : rem = []
    · simp [hrem] at h
    · rw [if_neg hrem] at h
      by_cases hh : (split_text_once rem n).1 = []
      · simp [hh] at h
      · rw [if_neg hh] at h
        rcases List.mem_cons.mp h with rfl | h2
        · exact split_text_once_fst_length_le _ _
        · exact ih _ _ h2

theorem split_text_once_zero_fst (t : List Char) : (split_text_once t 0).1 = [] := by
  unfold split_text_once
  by_cases h0 : pyStrip t = []
  · simp [h0]
  · rw [if_neg h0]
    obtain ⟨c, r, hcr⟩ : ∃ c r, pyStrip t = c :: r := by
      cases h : pyStrip t with
      | nil => exact absurd h h0
      | cons c r => exact ⟨c, r, rfl⟩
    have hc := strip_head_false hcr
    have hlen : ¬((pyStrip t).length ≤ 0) := by
      rw [hcr]
      simp
    rw [if_neg hlen]
    have hne : ∀ x : Char, pyIsSpace c = false → (c == x) = true → pyIsSpace x = true → False := by
      intro x hf hx hsp
      rw [eq_of_beq hx] at hf
      rw [hf] at hsp
      exact Bool.false_ne_true hsp
    have hidx : _find_split_index (pyStrip t) 0 = 0 := by
      unfold _find_split_index
      rw [hcr]
      have hwin : (c :: r).take (0 + 1) = [c] := by simp
      rw [hwin]
      have hfind : ∀ x : Char, pyIsSpace x = true → pyRfind [c] x = -1 := by
        intro x hsp
        unfold pyRfind
        have : (c == x) = false := by
          cases hcx : c == x with
          | false => rfl
          | true => exact (hne x hc hcx hsp).elim
        simp [List.findIdx?_cons, this, List.findIdx?]
      simp only [hfind '\n' (by decide), hfind ' ' (by decide), hfind '\t' (by decide)]
      decide
    rw [hidx]
    simp [pyRstrip]

/-- Claim C2: for every input string `text` and every maximum length `n ≥ 0`,
every segment produced by `split_text` has length at most `n`, and every
empty or whitespace-only input yields the empty sequence rather than a
sequence containing an empty segment. -/
theorem split_text_segments_bounded (text : List Char) (n : Nat) :
    (∀ seg ∈ split_text text n, seg.length ≤ n) ∧
    (text.all pyIsSpace = true → split_text text n = []) := by
  constructor
  · intro seg hseg
    unfold split_text at hseg
    by_cases h0 : pyStrip text = []
    · rw [if_pos h0] at hseg
      simp at hseg
    · rw [if_neg h0] at hseg
      exact splitTextGo_bounded _ _ _ _ hseg
  · intro h
    have h0 : pyStrip text = [] := all_space_strip_nil (List.all_eq_true.mp h)
    simp [split_text, h0]

theorem split_text_segments_bounded_witness :
    (s2l "ab").length ≤ 2 ∧ split_text (s2l " \t ") 7 = [] :=
  ⟨(split_text_segments_bounded (s2l "ab cd") 2).1 (s2l "ab") (by decide),
   (split_text_segments_bounded (s2l " \t ") 7).2 (by decide)⟩

/-- Claim C7, counterexample: `split_text_once` strips the input before the
fits-check, so on an input with surrounding whitespace that already fits the
budget the returned head is the stripped input, not the input unchanged. -/
theorem split_text_once_unstripped_cex :
    (s2l " a").length ≤ 2 ∧ split_text_once (s2l " a") 2 ≠ (s2l " a", []) := by
  decide

/-- Claim C7, amended: for every string `text` and every `n` with
`len(text) ≤ n`, `split_text_once` returns `(text.strip(), "")` — the first
component is the whitespace-stripped input (hence the input itself whenever
the input carries no surrounding whitespace), the second is empty. -/
theorem split_text_once_fits (text : List Char) (n : Nat) (h : text.length ≤ n) :
    split_text_once text n = (pyStrip text, []) := by
  unfold split_text_once
  by_cases h0 : pyStrip text = []
  · rw [if_pos h0, h0]
  · have hl : (pyStrip text).length ≤ n := le_trans (length_pyStrip_le text) h
    rw [if_neg h0, if_pos hl]

theorem split_text_once_fits_witness :
    (s2l "ab").length ≤ 5 ∧ split_text_once (s2l "ab") 5 = (s2l "ab", []) := by
  refine ⟨by decide, ?_⟩
  rw [split_text_once_fits (s2l "ab") 5 (by decide)]
  decide

/-- Claim C10: with maximum length `n = 0` and any input containing at least
one non-whitespace character, `split_text` returns the empty sequence — the
content is silently dropped — because `split_text_once` at budget `0`
produces an empty head and the loop breaks on an empty head. -/
theorem split_text_zero_budget (text : List Char)
    (h : ∃ c ∈ text, pyIsSpace c = false) :
    split_text text 0 = [] ∧ (split_text_once text 0).1 = [] := by
  have h0 : pyStrip text ≠ [] := by
    intro hnil
    obtain ⟨c, hc, hns⟩ := h
    rw [strip_nil_all_space hnil c hc] at hns
    simp at hns
  refine ⟨?_, split_text_once_zero_fst text⟩
  unfold split_text
  rw [if_neg h0]
  show splitTextGo 0 (text.length + 1) (pyStrip text) = []
  unfold splitTextGo
  rw [if_neg h0]
  have hh : (split_text_once (pyStrip text) 0).1 = [] := split_text_once_zero_fst _
  simp [hh]

theorem split_text_zero_budget_witness :
    split_text (s2l "abc") 0 = [] ∧ (split_text_once (s2l "abc") 0).1 = [] :=
  split_text_zero_budget (s2l "abc") ⟨'a', by decide, by decide⟩

/-- Claim C6: the counter parser maps `"1 234"` to `1234`, `"1.2K"` to
`1200`, `"3,5M"` to `3500000`, `"5K"` to `5000` and `"abc"` to `0`. -/
theorem parse_counter_examples :
    _parse_counter (s2l "1 234") = 1234 ∧
    _parse_counter (s2l "1.2K") = 1200 ∧
    _parse_counter (s2l "3,5M") = 3500000 ∧
    _parse_counter (s2l "5K") = 5000 ∧
    _parse_counter (s2l "abc") = 0 := by
  refine ⟨?_, ?_, ?_, ?_, ?_⟩
  · have h : counterScan (((s2l "1 234").filter (fun c => c != ' ')).map upperChar) =
        some (s2l "1234", ([], (none : Option Char))) := by decide
    unfold _parse_counter
    simp only [h]
    norm_num [show digitsToNat (s2l "1234") = 1234 from by decide,
      show digitsToNat ([] : List Char) = 0 from by decide]
    rw [if_neg (by simp), if_neg (by simp)]
    norm_num
  · have h : counterScan (((s2l "1.2K").filter (fun c => c != ' ')).map upperChar) =
        some (s2l "1", (s2l "2", some 'K')) := by decide
    unfold _parse_counter
    simp only [h]
    norm_num [show digitsToNat (s2l "1") = 1 from by decide,
      show digitsToNat (s2l "2") = 2 from by decide,
      show (s2l "2").length = 1 from rfl]
  · have h : counterScan (((s2l "3,5M").filter (fun c => c != ' ')).map upperChar) =
        some (s2l "3", (s2l "5", some 'M')) := by decide
    unfold _parse_counter
    simp only [h]
    norm_num [show digitsToNat (s2l "3") = 3 from by decide,
      show digitsToNat (s2l "5") = 5 from by decide,
      show (s2l "5").length = 1 from rfl]
    rw [if_neg (by decide)]
    norm_num
  · have h : counterScan (((s2l "5K").filter (fun c => c != ' ')).map upperChar) =
        some (s2l "5", ([], some 'K')) := by decide
    unfold _parse_counter
    simp only [h]
    norm_num [show digitsToNat (s2l "5") = 5 from by decide,
      show digitsToNat ([] : List Char) = 0 from by decide]
  · have h : counterScan (((s2l "abc").filter (fun c => c != ' ')).map upperChar) =
        none := by decide
    unfold _parse_counter
    simp only [h]
    decide

/-- Claim C8 fails on the code: on the bare-host input `"t.me/channelname"`
the stripping stage of `parse_post_link` removes the `t.me/` prefix while the
stripping stage of `_normalize_channel` leaves it, so the extracted slug is
`"t.me"` — contradicting `_normalize_channel`'s own documented example
(`"t.me/channelname"` is listed as normalizing to `"channelname"`). -/
theorem strip_stage_divergence :
    parseStripStage (s2l "t.me/channelname") = s2l "channelname" ∧
    normStripStage (s2l "t.me/channelname") = s2l "t.me/channelname" ∧
    _normalize_channel (s2l "t.me/channelname") = s2l "t.me" := by
  refine ⟨?_, ?_, ?_⟩ <;> decide

-- ### scraper lemmas

theorem fetch_page_next_guard (net : Net) (slug : List Char) (before : Option Int)
    (pp : List Post) (next : Option Int)
    (h : _fetch_page net slug before = .ok (pp, next)) :
    ∀ m, next = some m → 1 < m := by
  intro m hm
  subst hm
  unfold _fetch_page at h
  split at h
  · exact Except.noConfusion h
  · split at h
    · exact Except.noConfusion h
    · split at h
      · exact Except.noConfusion h
      · split at h
        · exact Except.noConfusion h
        · split at h
          · exact Except.noConfusion h
          · split at h
            · have := (Except.ok.injEq _ _).mp h
              have h2 := congrArg Prod.snd this
              exact Option.noConfusion h2
            · have := (Except.ok.injEq _ _).mp h
              have h2 := congrArg Prod.snd this
              simp only [] at h2
              split at h2
              · rename_i min_id hmin
                split at h2
                · rename_i hgt
                  injection h2 with h3
                  omega
                · exact Option.noConfusion h2
              · exact Option.noConfusion h2

theorem fetchLoop_trace_guard (net : Net) (slug : List Char) :
    ∀ (fuel : Nat) (before : Option Int) (acc : List Post),
      (before = none ∨ ∃ m, before = some m ∧ 1 < m) →
      ∀ c ∈ (fetchLoop net slug fuel before acc).1,
        c = none ∨ ∃ m, c = some m ∧ 1 < m := by
  intro fuel
  induction fuel with
  | zero =>
    intro before acc _ c hc
    simp [fetchLoop] at hc
  | succ f ih =>
    intro before acc hb c hc
    have hreq : carriedCursor before = none ∨ ∃ m, carriedCursor before = some m ∧ 1 < m := by
      rcases hb with rfl | ⟨m, rfl, hm⟩
      · exact Or.inl rfl
      · right
        refine ⟨m, ?_, hm⟩
        simp only [carriedCursor]
        rw [if_neg (by omega : ¬m = 0)]
    unfold fetchLoop at hc
    cases hfp : _fetch_page net slug before with
    | error e =>
      rw [hfp] at hc
      simp at hc
      rw [hc]
      exact hreq
    | ok pr =>
      obtain ⟨pp, next⟩ := pr
      rw [hfp] at hc
      dsimp only [] at hc
      by_cases hpp : pp = []
      · simp [hpp] at hc
        rw [hc]
        exact hreq
      · rw [if_neg hpp] at hc
        cases next with
        | none =>
          simp at hc
          rw [hc]
          exact hreq
        | some nb =>
          have hnb : 1 < nb := fetch_page_next_guard net slug before pp (some nb) hfp nb rfl
          dsimp only [] at hc
          rw [if_neg (by omega : ¬nb = 0)] at hc
          simp at hc
          rcases hc with rfl | hc2
          · exact hreq
          · exact ih (some nb) (acc ++ pp) (Or.inr ⟨nb, rfl, hnb⟩) c hc2

/-- Claim C1: whenever a scrape call succeeds, the assembled sequence is
sorted by internal message id in descending order (ties broken arbitrarily),
and the value returned to the caller is exactly that sequence with the
internal `message_id` field removed from every record, so no returned record
carries the field. -/
theorem fetch_posts_sorted_and_stripped (net : Net) (channel : List Char) (pages : Int)
    (l : List Post) (h : fetch_posts_core net channel pages = .ok l) :
    List.Pairwise (fun a b => idKey b ≤ idKey a) l ∧
    fetch_posts net channel pages = .ok (l.map postPop) ∧
    ∀ p ∈ l.map postPop, p.message_id = none := by
  refine ⟨?_, ?_, ?_⟩
  · unfold fetch_posts_core at h
    by_cases hs : _normalize_channel channel = []
    · rw [if_pos hs] at h
      exact Except.noConfusion h
    · rw [if_neg hs] at h
      cases hres : (fetchLoop net (_normalize_channel channel) (clampPages pages) none []).2 with
      | error e =>
        rw [hres] at h
        exact Except.noConfusion h
      | ok all =>
        rw [hres] at h
        dsimp only [] at h
        by_cases hall : all = []
        · rw [if_pos hall] at h
          exact Except.noConfusion h
        · rw [if_neg hall] at h
          injection h with h2
          rw [← h2]
          have hp := @List.sorted_mergeSort Post
            (fun a b => decide (idKey b ≤ idKey a))
            (fun a b c hab hbc => by
              rw [decide_eq_true_eq] at hab hbc ⊢
              exact le_trans hbc hab)
            (fun a b => by
              simp only [Bool.or_eq_true, decide_eq_true_eq]
              exact le_total (idKey b) (idKey a))
            all
          exact hp.imp (fun hab => of_decide_eq_true hab)
  · unfold fetch_posts
    rw [h]
    rfl
  · intro p hp
    obtain ⟨q, _, rfl⟩ := List.mem_map.mp hp
    rfl

theorem fetch_posts_sorted_and_stripped_witness :
    List.Pairwise (fun a b => idKey b ≤ idKey a) [witPost] ∧
    fetch_posts witNet (s2l "@c") 1 = .ok ([witPost].map postPop) ∧
    ∀ p ∈ [witPost].map postPop, p.message_id = none :=
  fetch_posts_sorted_and_stripped witNet (s2l "@c") 1 [witPost]
    (by
      rw [show fetch_posts_core witNet (s2l "@c") 1 =
            Except.ok ([witPost].mergeSort (fun a b => decide (idKey b ≤ idKey a))) from rfl,
        List.mergeSort_singleton])

/-- Claim C4: the cursor walker never forwards a cursor value at most 1.
First conjunct: a successful page fetch only ever reports a next cursor
strictly greater than 1 (a minimum id at most 1 collapses it to `none`).
Second conjunct: on a page whose cursor collapsed, the walker stops after
that single request instead of fetching again.  Third conjunct: along any
scrape call, every page request carries either no before-cursor or a cursor
strictly greater than 1. -/
theorem pagination_cursor_guard :
    (∀ (net : Net) (slug : List Char) (before : Option Int) (pp : List Post)
        (next : Option Int),
        _fetch_page net slug before = .ok (pp, next) → ∀ m, next = some m → 1 < m) ∧
    (∀ (net : Net) (slug : List Char) (fuel : Nat) (before : Option Int)
        (acc pp : List Post),
        _fetch_page net slug before = .ok (pp, none) → pp ≠ [] →
        fetchLoop net slug (fuel + 1) before acc =
          ([carriedCursor before], .ok (acc ++ pp))) ∧
    (∀ (net : Net) (channel : List Char) (pages : Int) (c : Option Int),
        c ∈ (fetchLoop net (_normalize_channel channel) (clampPages pages) none []).1 →
        c = none ∨ ∃ m, c = some m ∧ 1 < m) := by
  refine ⟨fetch_page_next_guard, ?_, ?_⟩
  · intro net slug fuel before acc pp h hpp
    unfold fetchLoop
    rw [h]
    dsimp only []
    rw [if_neg hpp]
  · intro net channel pages c hc
    exact fetchLoop_trace_guard net (_normalize_channel channel)
      (clampPages pages) none [] (Or.inl rfl) c hc

theorem pagination_cursor_guard_witness :
    ((1 : Int) < 5) ∧
    fetchLoop witNet2 (s2l "c") 1 none [] =
      ([none], .ok ([] ++ [buildPost (s2l "c") witMsgNoId (s2l "x")])) ∧
    ((none : Option Int) = none ∨ ∃ m, (none : Option Int) = some m ∧ 1 < m) :=
  ⟨pagination_cursor_guard.1 witNet (s2l "c") none [witPost] (some 5) (by rfl) 5 rfl,
   pagination_cursor_guard.2.1 witNet2 (s2l "c") 0 none []
     [buildPost (s2l "c") witMsgNoId (s2l "x")] (by rfl) (by simp),
   pagination_cursor_guard.2.2 witNet (s2l "@c") 1 none (by decide)⟩

/-- Claim C5: an HTTP 404 on any page request makes the whole scrape fail
with the not-found-or-private error, discarding every post accumulated from
earlier pages of the same call (first conjunct: the loop result at that point
is the bare error, whatever the accumulator holds), and that error is what
the scrape call returns (second conjunct). -/
theorem http404_aborts_pagination :
    (∀ (net : Net) (slug : List Char) (fuel : Nat) (before : Option Int)
        (acc : List Post) (errorPage : Bool) (messages : List Msg),
        net (carriedCursor before) = .response 404 errorPage messages →
        fetchLoop net slug (fuel + 1) before acc =
          ([carriedCursor before], .error .notFoundOrPrivate)) ∧
    (∀ (net : Net) (channel : List Char) (pages : Int),
        _normalize_channel channel ≠ [] →
        (fetchLoop net (_normalize_channel channel) (clampPages pages) none []).2 =
          .error .notFoundOrPrivate →
        fetch_posts net channel pages = .error .notFoundOrPrivate) := by
  constructor
  · intro net slug fuel before acc ep msgs hnet
    have hfp : _fetch_page net slug before = .error .notFoundOrPrivate := by
      unfold _fetch_page
      rw [hnet]
      rfl
    unfold fetchLoop
    rw [hfp]
  · intro net channel pages hs hloop
    unfold fetch_posts fetch_posts_core
    dsimp only []
    rw [if_neg hs, hloop]
    rfl

theorem http404_aborts_pagination_witness :
    fetchLoop witNet404 (s2l "c") 1 (some 5) [witPost] =
      ([some 5], .error .notFoundOrPrivate) ∧
    fetch_posts witNet404 (s2l "@c") 2 = .error .notFoundOrPrivate :=
  ⟨http404_aborts_pagination.1 witNet404 (s2l "c") 0 (some 5) [witPost] false [] (by rfl),
   http404_aborts_pagination.2 witNet404 (s2l "@c") 2 (by decide) (by rfl)⟩

/-- Claim C9: when normalization of the channel reference yields an empty
slug, both the multi-page scrape and the single-post fetch fail with the
invalid-channel-name error for every possible network, i.e. before any HTTP
request is consulted. -/
theorem empty_slug_no_fetch (channel : List Char) (h : _normalize_channel channel = []) :
    (∀ (net : Net) (pages : Int), fetch_posts net channel pages = .error .invalidChannel) ∧
    (∀ (net1 : FetchOutcome) (post_id : Int),
        fetch_single_post net1 channel post_id = .error .invalidChannel) := by
  constructor
  · intro net pages
    unfold fetch_posts fetch_posts_core
    dsimp only []
    rw [if_pos h]
    rfl
  · intro net1 pid
    unfold fetch_single_post
    dsimp only []
    rw [if_pos h]

theorem empty_slug_no_fetch_witness :
    fetch_posts witNet (s2l "@") 3 = .error .invalidChannel ∧
    fetch_single_post (witNet none) (s2l "https://t.me/") 7 = .error .invalidChannel :=
  ⟨(empty_slug_no_fetch (s2l "@") (by decide)).1 witNet 3,
   (empty_slug_no_fetch (s2l "https://t.me/") (by decide)).2 (witNet none) 7⟩

-- ### post-link classifier lemmas

theorem char_toNat_ofNat (n : Nat) (h : n.isValidChar) : (Char.ofNat n).toNat = n := by
  simp [Char.ofNat, h, Char.ofNatAux, Char.toNat, UInt32.toNat, BitVec.toNat_ofNat]

theorem lowerChar_ne_slash {c : Char} (h : c ≠ '/') : lowerChar c ≠ '/' := by
  unfold lowerChar
  split
  · rename_i hin
    obtain ⟨h1, h2⟩ := hin
    have hA : 65 ≤ c.toNat := by
      rw [Char.le_def, UInt32.le_def, BitVec.le_def] at h1
      simpa [Char.toNat, UInt32.toNat] using h1
    have hZ : c.toNat ≤ 90 := by
      rw [Char.le_def, UInt32.le_def, BitVec.le_def] at h2
      simpa [Char.toNat, UInt32.toNat] using h2
    intro heq
    have hvalid : (c.toNat + 32).isValidChar := Or.inl (by omega)
    have htn := congrArg Char.toNat heq
    rw [char_toNat_ofNat _ hvalid] at htn
    have hsl : ('/' : Char).toNat = 47 := by decide
    omega
  · exact h

theorem dropCaseLit_append (lit rest : List Char) (hlow : lowerList lit = lit) :
    dropCaseLit lit (lit ++ rest) = some rest := by
  unfold dropCaseLit
  rw [List.take_left, hlow, if_pos rfl, List.drop_left]

theorem dropCaseLit_head_ne {a : Char} {lit : List Char} {c : Char} {rest : List Char}
    (h : lowerChar c ≠ a) : dropCaseLit (a :: lit) (c :: rest) = none := by
  unfold dropCaseLit
  rw [if_neg]
  intro heq
  rw [List.length_cons, List.take_succ_cons] at heq
  unfold lowerList at heq
  rw [List.map_cons] at heq
  exact h (List.cons.inj heq).1

theorem stripFeedMarker_of_none {l : List Char} (h : dropCaseLit (s2l "s/") l = none) :
    stripFeedMarker l = l := by
  unfold stripFeedMarker
  rw [h]

theorem feed_no_match {slug idn : List Char} (hs : slug ≠ []) (hns : '/' ∉ slug)
    (hlow : lowerList slug ≠ s2l "s") :
    dropCaseLit (s2l "s/") (slug ++ '/' :: idn) = none := by
  cases slug with
  | nil => exact absurd rfl hs
  | cons c t =>
    cases t with
    | nil =>
      have hc : lowerChar c ≠ 's' := by
        intro heq
        exact hlow (by simp [lowerList, heq, s2l])
      show dropCaseLit ('s' :: s2l "/") (c :: ('/' :: idn)) = none
      exact dropCaseLit_head_ne hc
    | cons c2 t2 =>
      have hc2 : c2 ≠ '/' := by
        intro heq
        subst heq
        exact hns (List.mem_cons_of_mem c (List.mem_cons_self _ t2))
      unfold dropCaseLit
      rw [if_neg]
      intro heq
      have hlen : (s2l "s/").length = 2 := by rfl
      rw [hlen] at heq
      have htake : (c :: c2 :: (t2 ++ '/' :: idn)).take 2 = [c, c2] := by
        rw [List.take_succ_cons, List.take_succ_cons, List.take_zero]
      rw [show (c :: c2 :: t2) ++ '/' :: idn = c :: c2 :: (t2 ++ '/' :: idn) from rfl,
        htake] at heq
      unfold lowerList at heq
      rw [List.map_cons, List.map_cons, List.map_nil] at heq
      have h2 := (List.cons.inj (List.cons.inj heq).2).1
      exact lowerChar_ne_slash hc2 h2

theorem lstripAt_slugLed {slug : List Char} (hs : slug ≠ []) (hat : slug.head? ≠ some '@')
    (rest : List Char) : lstripAt (slug ++ rest) = slug ++ rest := by
  cases slug with
  | nil => exact absurd rfl hs
  | cons c t =>
    have hc : ¬((c == '@') = true) := by
      intro hb
      exact hat (by rw [List.head?_cons, eq_of_beq hb])
    show List.dropWhile (· == '@') (c :: (t ++ rest)) = c :: (t ++ rest)
    rw [List.dropWhile_cons, if_neg hc]

theorem pySplitSlash_cons (c : Char) (rest : List Char) :
    pySplitSlash (c :: rest) =
      if c = '/' then [] :: pySplitSlash rest
      else
        match pySplitSlash rest with
        | [] => [[c]]
        | h :: t => (c :: h) :: t := by
  conv_lhs => unfold pySplitSlash

theorem pySplitSlash_no_slash {l : List Char} (h : '/' ∉ l) : pySplitSlash l = [l] := by
  induction l with
  | nil => rfl
  | cons c t ih =>
    have hc : c ≠ '/' := fun heq => h (heq ▸ List.mem_cons_self c t)
    have ht : '/' ∉ t := fun hm => h (List.mem_cons_of_mem c hm)
    rw [pySplitSlash_cons, if_neg hc, ih ht]

theorem pySplitSlash_append {a : List Char} (b : List Char) (h : '/' ∉ a) :
    pySplitSlash (a ++ '/' :: b) = a :: pySplitSlash b := by
  induction a with
  | nil =>
    show pySplitSlash ('/' :: b) = [] :: pySplitSlash b
    rw [pySplitSlash_cons, if_pos rfl]
  | cons c t ih =>
    have hc : c ≠ '/' := fun heq => h (heq ▸ List.mem_cons_self c t)
    have ht : '/' ∉ t := fun hm => h (List.mem_cons_of_mem c hm)
    show pySplitSlash (c :: (t ++ '/' :: b)) = (c :: t) :: pySplitSlash b
    rw [pySplitSlash_cons, if_neg hc, ih ht]

theorem digits_no_slash {l : List Char} (h : l.all isdigitChar = true) : '/' ∉ l := by
  intro hm
  have hd := List.all_eq_true.mp h '/' hm
  exact absurd hd (by decide)

theorem pyIsdigit_of_parts {l : List Char} (hd : l ≠ [])
    (hdig : l.all isdigitChar = true) : pyIsdigit l = true := by
  unfold pyIsdigit
  rw [hdig]
  cases l with
  | nil => exact absurd rfl hd
  | cons c t => rfl

theorem parse_post_link_of_stage {url slug idn : List Char}
    (hstage : parseStripStage url = slug ++ '/' :: idn)
    (hs : slug ≠ []) (hns : '/' ∉ slug)
    (hd : idn ≠ []) (hdig : idn.all isdigitChar = true)
    (hpos : 0 < decValue idn) :
    parse_post_link url = some (slug, decValue idn) := by
  have hnd : '/' ∉ idn := digits_no_slash hdig
  unfold parse_post_link
  rw [hstage, pySplitSlash_append idn hns, pySplitSlash_no_slash hnd]
  dsimp only []
  rw [if_neg hs, if_pos (pyIsdigit_of_parts hd hdig), if_neg (by omega)]

theorem parseStrip_scheme {url slug idn : List Char}
    (hstrip : pyStrip url = s2l "https://t.me/" ++ (slug ++ '/' :: idn))
    (hs : slug ≠ []) (hns : '/' ∉ slug) (hat : slug.head? ≠ some '@')
    (hlow : lowerList slug ≠ s2l "s") :
    parseStripStage url = slug ++ '/' :: idn := by
  unfold parseStripStage
  rw [hstrip]
  dsimp only []
  have h1 : stripSchemeHost (s2l "https://t.me/" ++ (slug ++ '/' :: idn)) =
      slug ++ '/' :: idn := by
    unfold stripSchemeHost
    rw [dropCaseLit_append _ _ (by decide)]
    exact stripFeedMarker_of_none (feed_no_match hs hns hlow)
  rw [h1]
  have hne : ¬(slug ++ '/' :: idn = s2l "https://t.me/" ++ (slug ++ '/' :: idn)) := by
    intro heq
    have hlen := congrArg List.length heq
    have h13 : (s2l "https://t.me/").length = 13 := by rfl
    simp only [List.length_append, h13] at hlen
    omega
  rw [if_neg hne]
  exact lstripAt_slugLed hs hat _

theorem parseStrip_schemeS {url slug idn : List Char}
    (hstrip : pyStrip url = s2l "https://t.me/s/" ++ (slug ++ '/' :: idn))
    (hs : slug ≠ []) (hat : slug.head? ≠ some '@') :
    parseStripStage url = slug ++ '/' :: idn := by
  unfold parseStripStage
  rw [hstrip]
  dsimp only []
  have hsplit : s2l "https://t.me/s/" ++ (slug ++ '/' :: idn) =
      s2l "https://t.me/" ++ (s2l "s/" ++ (slug ++ '/' :: idn)) := by rfl
  have hf : stripFeedMarker (s2l "s/" ++ (slug ++ '/' :: idn)) = slug ++ '/' :: idn := by
    unfold stripFeedMarker
    rw [dropCaseLit_append (s2l "s/") _ (by decide)]
  have h1 : stripSchemeHost (s2l "https://t.me/s/" ++ (slug ++ '/' :: idn)) =
      slug ++ '/' :: idn := by
    unfold stripSchemeHost
    rw [hsplit, dropCaseLit_append (s2l "https://t.me/") _ (by decide)]
    exact hf
  rw [h1]
  have hne : ¬(slug ++ '/' :: idn = s2l "https://t.me/s/" ++ (slug ++ '/' :: idn)) := by
    intro heq
    have hlen := congrArg List.length heq
    have h15 : (s2l "https://t.me/s/").length = 15 := by rfl
    simp only [List.length_append, h15] at hlen
    omega
  rw [if_neg hne]
  exact lstripAt_slugLed hs hat _

theorem parseStrip_schemeHttp {url slug idn : List Char}
    (hstrip : pyStrip url = s2l "http://t.me/" ++ (slug ++ '/' :: idn))
    (hs : slug ≠ []) (hns : '/' ∉ slug) (hat : slug.head? ≠ some '@')
    (hlow : lowerList slug ≠ s2l "s") :
    parseStripStage url = slug ++ '/' :: idn := by
  unfold parseStripStage
  rw [hstrip]
  dsimp only []
  have e1 : dropCaseLit (s2l "https://t.me/")
      (s2l "http://t.me/" ++ (slug ++ '/' :: idn)) = none := by
    unfold dropCaseLit
    rw [if_neg]
    intro heq
    have h4 := congrArg (fun l : List Char => l[4]?) heq
    exact absurd (show (some ':' : Option Char) = some 's' from h4) (by decide)
  have h1 : stripSchemeHost (s2l "http://t.me/" ++ (slug ++ '/' :: idn)) =
      slug ++ '/' :: idn := by
    unfold stripSchemeHost
    rw [e1, dropCaseLit_append (s2l "http://t.me/") _ (by decide)]
    exact stripFeedMarker_of_none (feed_no_match hs hns hlow)
  rw [h1]
  have hne : ¬(slug ++ '/' :: idn = s2l "http://t.me/" ++ (slug ++ '/' :: idn)) := by
    intro heq
    have hlen := congrArg List.length heq
    have h12 : (s2l "http://t.me/").length = 12 := by rfl
    simp only [List.length_append, h12] at hlen
    omega
  rw [if_neg hne]
  exact lstripAt_slugLed hs hat _

theorem parseStrip_schemeHttpS {url slug idn : List Char}
    (hstrip : pyStrip url = s2l "http://t.me/s/" ++ (slug ++ '/' :: idn))
    (hs : slug ≠ []) (hat : slug.head? ≠ some '@') :
    parseStripStage url = slug ++ '/' :: idn := by
  unfold parseStripStage
  rw [hstrip]
  dsimp only []
  have e1 : dropCaseLit (s2l "https://t.me/")
      (s2l "http://t.me/s/" ++ (slug ++ '/' :: idn)) = none := by
    unfold dropCaseLit
    rw [if_neg]
    intro heq
    have h4 := congrArg (fun l : List Char => l[4]?) heq
    exact absurd (show (some ':' : Option Char) = some 's' from h4) (by decide)
  have hsplit : s2l "http://t.me/s/" ++ (slug ++ '/' :: idn) =
      s2l "http://t.me/" ++ (s2l "s/" ++ (slug ++ '/' :: idn)) := by rfl
  have hf : stripFeedMarker (s2l "s/" ++ (slug ++ '/' :: idn)) = slug ++ '/' :: idn := by
    unfold stripFeedMarker
    rw [dropCaseLit_append (s2l "s/") _ (by decide)]
  have h1 : stripSchemeHost (s2l "http://t.me/s/" ++ (slug ++ '/' :: idn)) =
      slug ++ '/' :: idn := by
    unfold stripSchemeHost
    rw [e1, hsplit, dropCaseLit_append (s2l "http://t.me/") _ (by decide)]
    exact hf
  rw [h1]
  have hne : ¬(slug ++ '/' :: idn = s2l "http://t.me/s/" ++ (slug ++ '/' :: idn)) := by
    intro heq
    have hlen := congrArg List.length heq
    have h14 : (s2l "http://t.me/s/").length = 14 := by rfl
    simp only [List.length_append, h14] at hlen
    omega
  rw [if_neg hne]
  exact lstripAt_slugLed hs hat _

theorem parseStrip_bare {url slug idn : List Char}
    (hstrip : pyStrip url = s2l "t.me/" ++ (slug ++ '/' :: idn))
    (hs : slug ≠ []) (hns : '/' ∉ slug) (hat : slug.head? ≠ some '@')
    (hlow : lowerList slug ≠ s2l "s") :
    parseStripStage url = slug ++ '/' :: idn := by
  unfold parseStripStage
  rw [hstrip]
  dsimp only []
  have e1 : dropCaseLit (s2l "https://t.me/") (s2l "t.me/" ++ (slug ++ '/' :: idn)) = none := by
    rw [show s2l "https://t.me/" = 'h' :: s2l "ttps://t.me/" from rfl,
      show s2l "t.me/" ++ (slug ++ '/' :: idn) = 't' :: (s2l ".me/" ++ (slug ++ '/' :: idn)) from rfl]
    exact dropCaseLit_head_ne (by decide)
  have e2 : dropCaseLit (s2l "http://t.me/") (s2l "t.me/" ++ (slug ++ '/' :: idn)) = none := by
    rw [show s2l "http://t.me/" = 'h' :: s2l "ttp://t.me/" from rfl,
      show s2l "t.me/" ++ (slug ++ '/' :: idn) = 't' :: (s2l ".me/" ++ (slug ++ '/' :: idn)) from rfl]
    exact dropCaseLit_head_ne (by decide)
  have h1 : stripSchemeHost (s2l "t.me/" ++ (slug ++ '/' :: idn)) =
      s2l "t.me/" ++ (slug ++ '/' :: idn) := by
    unfold stripSchemeHost
    rw [e1, e2]
  rw [h1, if_pos rfl]
  have h2 : stripBareHost (s2l "t.me/" ++ (slug ++ '/' :: idn)) = slug ++ '/' :: idn := by
    unfold stripBareHost
    rw [dropCaseLit_append _ _ (by decide)]
    exact stripFeedMarker_of_none (feed_no_match hs hns hlow)
  rw [h2]
  exact lstripAt_slugLed hs hat _

theorem parseStrip_at {url slug idn : List Char}
    (hstrip : pyStrip url = '@' :: (slug ++ '/' :: idn))
    (hs : slug ≠ []) (hat : slug.head? ≠ some '@') :
    parseStripStage url = slug ++ '/' :: idn := by
  unfold parseStripStage
  rw [hstrip]
  dsimp only []
  have e1 : dropCaseLit (s2l "https://t.me/") ('@' :: (slug ++ '/' :: idn)) = none := by
    rw [show s2l "https://t.me/" = 'h' :: s2l "ttps://t.me/" from rfl]
    exact dropCaseLit_head_ne (by decide)
  have e2 : dropCaseLit (s2l "http://t.me/") ('@' :: (slug ++ '/' :: idn)) = none := by
    rw [show s2l "http://t.me/" = 'h' :: s2l "ttp://t.me/" from rfl]
    exact dropCaseLit_head_ne (by decide)
  have e3 : dropCaseLit (s2l "t.me/") ('@' :: (slug ++ '/' :: idn)) = none := by
    rw [show s2l "t.me/" = 't' :: s2l ".me/" from rfl]
    exact dropCaseLit_head_ne (by decide)
  have h1 : stripSchemeHost ('@' :: (slug ++ '/' :: idn)) = '@' :: (slug ++ '/' :: idn) := by
    unfold stripSchemeHost
    rw [e1, e2]
  rw [h1, if_pos rfl]
  have h2 : stripBareHost ('@' :: (slug ++ '/' :: idn)) = '@' :: (slug ++ '/' :: idn) := by
    unfold stripBareHost
    rw [e3]
  rw [h2]
  show List.dropWhile (· == '@') ('@' :: (slug ++ '/' :: idn)) = slug ++ '/' :: idn
  rw [List.dropWhile_cons, if_pos (by decide)]
  exact lstripAt_slugLed hs hat _

/-- Claim C3, counterexample: the claim's channel-only bucket includes every
id segment that is not ASCII digits, but Python `str.isdigit` accepts every
Unicode decimal digit and `int` parses it, so on `"@x/٥"` (U+0665, Eastern
Arabic five — not an ASCII digit) the source returns `("x", 5)` rather than
"not a direct link". -/
theorem parse_post_link_unicode_digit_cex :
    (['\u0665'].all Char.isDigit = false) ∧
    parse_post_link ['@', 'x', '/', '\u0665'] = some (['x'], 5) := by
  exact ⟨by decide, by decide⟩

/-- Claim C3, amended: the id test is Python's `str.isdigit`/`int`, not
ASCII.  Positive part: for every direct post-link form —
`http(s)://t.me/slug/digits`, `http(s)://t.me/s/slug/digits`,
`t.me/slug/digits`, `@slug/digits`, with or without surrounding whitespace
(captured by the hypothesis on the whitespace-stripped input) — the
classifier returns `(slug, id)` with the id parsed numerically from Unicode
decimal digits (leading zeros accepted), for every slug that is non-empty,
contains no `/`, does not begin with `@`, and is not the reserved feed-view
marker `s` itself (the prefix regexes consume a leading `s/`
case-insensitively, so a bare slug `s` cannot be addressed through the
host-prefixed forms).  Negative part: whitespace-only input, any input whose
stripped remainder does not split on `/` into exactly two parts, and any
two-part split with an empty slug, an id that is empty or not entirely
Unicode decimal digits (signs, decimal points, and the non-decimal `isdigit`
characters on which `int` raises), or an id value of zero, all yield
`none`. -/
theorem parse_post_link_classification :
    (∀ url slug idn : List Char,
        slug ≠ [] → '/' ∉ slug → slug.head? ≠ some '@' → lowerList slug ≠ s2l "s" →
        idn ≠ [] → idn.all isdigitChar = true → 0 < decValue idn →
        ((pyStrip url = s2l "https://t.me/" ++ (slug ++ '/' :: idn) →
            parse_post_link url = some (slug, decValue idn)) ∧
          (pyStrip url = s2l "https://t.me/s/" ++ (slug ++ '/' :: idn) →
            parse_post_link url = some (slug, decValue idn)) ∧
          (pyStrip url = s2l "http://t.me/" ++ (slug ++ '/' :: idn) →
            parse_post_link url = some (slug, decValue idn)) ∧
          (pyStrip url = s2l "http://t.me/s/" ++ (slug ++ '/' :: idn) →
            parse_post_link url = some (slug, decValue idn)) ∧
          (pyStrip url = s2l "t.me/" ++ (slug ++ '/' :: idn) →
            parse_post_link url = some (slug, decValue idn)) ∧
          (pyStrip url = '@' :: (slug ++ '/' :: idn) →
            parse_post_link url = some (slug, decValue idn)))) ∧
    (∀ url : List Char, pyStrip url = [] → parse_post_link url = none) ∧
    (∀ url : List Char, (pySplitSlash (parseStripStage url)).length ≠ 2 →
        parse_post_link url = none) ∧
    (∀ url a b : List Char, pySplitSlash (parseStripStage url) = [a, b] →
        (a = [] ∨ b = [] ∨ ¬(b.all isdigitChar = true) ∨ decValue b = 0) →
        parse_post_link url = none) := by
  refine ⟨?_, ?_, ?_, ?_⟩
  · intro url slug idn hs hns hat hlow hd hdig hpos
    exact ⟨fun hstrip =>
        parse_post_link_of_stage (parseStrip_scheme hstrip hs hns hat hlow) hs hns hd hdig hpos,
      fun hstrip =>
        parse_post_link_of_stage (parseStrip_schemeS hstrip hs hat) hs hns hd hdig hpos,
      fun hstrip =>
        parse_post_link_of_stage (parseStrip_schemeHttp hstrip hs hns hat hlow) hs hns hd hdig hpos,
      fun hstrip =>
        parse_post_link_of_stage (parseStrip_schemeHttpS hstrip hs hat) hs hns hd hdig hpos,
      fun hstrip =>
        parse_post_link_of_stage (parseStrip_bare hstrip hs hns hat hlow) hs hns hd hdig hpos,
      fun hstrip =>
        parse_post_link_of_stage (parseStrip_at hstrip hs hat) hs hns hd hdig hpos⟩
  · intro url h
    unfold parse_post_link parseStripStage
    dsimp only []
    rw [h]
    rfl
  · intro url hlen
    unfold parse_post_link
    rcases hparts : pySplitSlash (parseStripStage url) with _ | ⟨a, _ | ⟨b, _ | ⟨c, t⟩⟩⟩
    · rfl
    · rfl
    · rw [hparts] at hlen
      simp at hlen
    · rfl
  · intro url a b hp hcond
    unfold parse_post_link
    rw [hp]
    dsimp only []
    by_cases haa : a = []
    · rw [if_pos haa]
    · rw [if_neg haa]
      by_cases hpy : pyIsdigit b = true
      · have hb : b ≠ [] := by
          intro hnil
          subst hnil
          simp [pyIsdigit] at hpy
        have hall : b.all isdigitChar = true := by
          unfold pyIsdigit at hpy
          exact (Bool.and_eq_true _ _ |>.mp hpy).2
        have hz : decValue b = 0 := by
          rcases hcond with ha | hbe | hnd | hz
          · exact absurd ha haa
          · exact absurd hbe hb
          · exact absurd hall hnd
          · exact hz
        rw [if_pos hpy, if_pos (by omega)]
      · rw [if_neg hpy]

theorem parse_post_link_classification_witness :
    parse_post_link (s2l " http://t.me/prog_ai/00345 ") = some (s2l "prog_ai", 345) ∧
    parse_post_link ['@', 'x', '/', '\u0665'] = some (['x'], 5) ∧
    parse_post_link (s2l "@prog_ai") = none :=
  ⟨(parse_post_link_classification.1 (s2l " http://t.me/prog_ai/00345 ")
      (s2l "prog_ai") (s2l "00345") (by decide) (by decide) (by decide) (by decide)
      (by decide) (by decide) (by decide)).2.2.1 (by decide),
   (parse_post_link_classification.1 ['@', 'x', '/', '\u0665']
      (['x']) (['\u0665']) (by decide) (by decide) (by decide) (by decide)
      (by decide) (by decide) (by decide)).2.2.2.2.2 (by decide),
   parse_post_link_classification.2.2.1 (s2l "@prog_ai") (by decide)⟩
